import Mathlib

/-!
Verification of the epub_word_extractor repository (epub_word_extractor.py and
find_common.py) against its specification.

Strings are modelled as `List Char`.  Python's regular-expression driven
functions are translated into deterministic scanner functions; wherever a
regex quantifier's backtracking admits more than one candidate, a comment at
the definition records the argument that the scanner reproduces exactly the
match CPython's `re` engine selects.  Character classes (`\s`, `\w`, `\d`,
`str.lower`, `int()`) are modelled on their ASCII fragment; every concrete
input used in a theorem stays inside that fragment.

The file is laid out as definitions first (the embedding of the two scripts),
then the theorems.
-/

/-! ## Character classes (ASCII fragments of Python's classes) -/

/-- ASCII whitespace, the fragment of Python's `\s` / `str.strip` default
exercised here: space, tab, newline, carriage return, vertical tab, form feed. -/
def isWS (c : Char) : Bool :=
  c = ' ' || c = '\t' || c = '\n' || c = '\r' || c = Char.ofNat 11 || c = Char.ofNat 12

def isUpperA (c : Char) : Bool := 65 ≤ c.toNat && c.toNat ≤ 90

def isLowerA (c : Char) : Bool := 97 ≤ c.toNat && c.toNat ≤ 122

/-- The class `[a-zA-Z]`. -/
def isAlphaA (c : Char) : Bool := isUpperA c || isLowerA c

/-- The class `[0-9]`, the ASCII fragment of Python's `\d`. -/
def isDigitA (c : Char) : Bool := 48 ≤ c.toNat && c.toNat ≤ 57

/-- The ASCII fragment of Python's `\w` (word character): letter, digit or
underscore. -/
def wordChar (c : Char) : Bool := isAlphaA c || isDigitA c || c = '_'

/-- The apostrophe character (U+0027), kept out of literals for hygiene. -/
def apostropheChar : Char := Char.ofNat 39

/-- The joining characters of the word pattern: `[-']`. -/
def sepChar (c : Char) : Bool := c = '-' || c = apostropheChar

/-- The class `[一-鿿]`: the CJK unified ideographs block tested by pattern 2. -/
def isCJK (c : Char) : Bool := 0x4e00 ≤ c.toNat && c.toNat ≤ 0x9fff

/-- ASCII `str.lower`: map A-Z to a-z, leave everything else alone. -/
def toLowerA (c : Char) : Char :=
  if isUpperA c then Char.ofNat (c.toNat + 32) else c

def lowerStr (s : List Char) : List Char := s.map toLowerA

/-- Python `str.strip()` (ASCII whitespace fragment): drop leading and trailing
whitespace. -/
def pyStrip (s : List Char) : List Char :=
  ((s.dropWhile isWS).reverse.dropWhile isWS).reverse

/-- The test `re.search(r'\d', word)` as a Bool: does the word contain a digit. -/
def containsDigit (w : List Char) : Bool := w.any isDigitA

/-! ## Order-preserving deduplication

Both scripts deduplicate with the same idiom: a `seen` set and an output list,
keeping the first occurrence of each element. -/

def dedupeAux {α : Type} [DecidableEq α] (seen : List α) : List α → List α
  | [] => []
  | w :: ws => if w ∈ seen then dedupeAux seen ws else w :: dedupeAux (w :: seen) ws

def dedupe {α : Type} [DecidableEq α] (l : List α) : List α := dedupeAux [] l

/-! ## find_common.py

`find_common_words(file1_path, file2_path, output_path)` reads list A keeping
order (blank lines skipped after stripping), reads list B into a set, walks A
keeping members of B not yet seen, writes the result and returns its length;
on a missing input file it returns -1 before touching the output. -/

/-- Reading a word-list file: strip each line, skip the ones that strip to
nothing (`for line in f1: word = line.strip(); if word: ...`). -/
def read_words_lines (lines : List (List Char)) : List (List Char) :=
  (lines.map pyStrip).filter (fun w => ¬(w = []))

/-- The selection loop of `find_common_words`: keep words of the first list
that are in the second file's set and not seen yet. -/
def common_loop (bset : List (List Char)) (seen : List (List Char)) :
    List (List Char) → List (List Char)
  | [] => []
  | w :: ws =>
    if w ∈ bset ∧ ¬(w ∈ seen) then w :: common_loop bset (w :: seen) ws
    else common_loop bset seen ws

/-- The pure core of `find_common_words`, from the two files' line lists to
the common-word list. -/
def find_common_core (lines1 lines2 : List (List Char)) : List (List Char) :=
  common_loop (read_words_lines lines2) [] (read_words_lines lines1)

/-! A minimal file-system model for the I/O shell of find_common.py: a list of
(path, lines) pairs.  Reading looks a path up; writing replaces or appends. -/

def fsLookup {β : Type} (fs : List (List Char × β)) (k : List Char) : Option β :=
  match fs with
  | [] => none
  | (n, d) :: rest => if n = k then some d else fsLookup rest k

def fsWrite (fs : List (List Char × List (List Char))) (path : List Char)
    (lines : List (List Char)) : List (List Char × List (List Char)) :=
  match fs with
  | [] => [(path, lines)]
  | (n, d) :: rest =>
    if n = path then (path, lines) :: rest else (n, d) :: fsWrite rest path lines

/-- Function `find_common_words` over the file-system model: read both inputs (a
missing one makes the whole call return the sentinel -1 with the file system
untouched, as the `FileNotFoundError` handler fires before the output file is
opened), else compute the common list, write it and return its length. -/
def find_common_words (fs : List (List Char × List (List Char)))
    (p1 p2 outp : List Char) : Int × List (List Char × List (List Char)) :=
  match fsLookup fs p1 with
  | none => (-1, fs)
  | some l1 =>
    match fsLookup fs p2 with
    | none => (-1, fs)
    | some l2 =>
      let common := find_common_core l1 l2
      ((common.length : Int), fsWrite fs outp common)

def linesA : List (List Char) :=
  [("cat").toList, ("dog").toList, ("bird").toList, ("cat").toList, ("fish").toList]

def linesB : List (List Char) := [("dog").toList, ("fish").toList, ("owl").toList]

def c9fs : List (List Char × List (List Char)) :=
  [(("file1.txt").toList, [("cat").toList])]

/-! ## Spine resolution (get_epub_spine, lines 67-80)

After the OPF document is parsed into a manifest (id → resolved path) and the
spine's ordered idref list, the content file list is built by walking the
spine in order, mapping each idref through the manifest, keeping HTML-like
paths and silently dropping idrefs with no manifest entry. -/

/-- Python-dict lookup for a manifest built by repeated assignment: the last
binding of a key wins. -/
def dictLookup (pairs : List (List Char × List Char)) (k : List Char) :
    Option (List Char) :=
  match pairs with
  | [] => none
  | (i, p) :: rest =>
    match dictLookup rest k with
    | some q => some q
    | none => if i = k then some p else none

/-- The test `file_path.lower().endswith(('.html', '.xhtml', '.htm'))`. -/
def isHtmlLike (p : List Char) : Bool :=
  ((".html").toList.isSuffixOf (lowerStr p)) ||
  ((".xhtml").toList.isSuffixOf (lowerStr p)) ||
  ((".htm").toList.isSuffixOf (lowerStr p))

/-- The spine walk of `get_epub_spine` (lines 72-78). -/
def build_ordered_files (spine : List (List Char))
    (manifest : List (List Char × List Char)) : List (List Char) :=
  match spine with
  | [] => []
  | i :: rest =>
    match dictLookup manifest i with
    | some p =>
      if isHtmlLike p then p :: build_ordered_files rest manifest
      else build_ordered_files rest manifest
    | none => build_ordered_files rest manifest

/-- An idref is kept exactly when it has a manifest entry resolving to an
HTML-like path. -/
def spineKeep (manifest : List (List Char × List Char)) (i : List Char) : Bool :=
  match dictLookup manifest i with
  | some p => isHtmlLike p
  | none => false

/-! ## Page-range parsing (parse_page_range, lines 332-363) -/

/-- The value of the accumulated decimal digits. -/
def natOfDigits (ds : List Char) : Nat :=
  ds.foldl (fun a c => a * 10 + (c.toNat - 48)) 0

/-- Python's `int()` on a string, ASCII fragment: strip whitespace, an
optional sign, then a nonempty run of decimal digits.  (CPython additionally
accepts underscore digit separators and non-ASCII decimal digits; no claim
depends on those inputs.) -/
def parseIntPy (s : List Char) : Option Int :=
  match pyStrip s with
  | [] => none
  | c :: cs =>
    if c = '-' then
      if cs ≠ [] ∧ cs.all isDigitA then some (-(natOfDigits cs : Int)) else none
    else if c = '+' then
      if cs ≠ [] ∧ cs.all isDigitA then some ((natOfDigits cs : Int)) else none
    else
      if (c :: cs).all isDigitA then some ((natOfDigits (c :: cs) : Int)) else none

/-- Python `page_range_str.split('-', 1)`: the text before the first '-' and the
text after it. -/
def splitOnceDash (s : List Char) : List Char × List Char :=
  (s.takeWhile (fun x => ¬(x = '-')), (s.dropWhile (fun x => ¬(x = '-'))).drop 1)

/-- Function `parse_page_range` (lines 332-363).  Empty input returns (None, None);
without a dash the single integer N gives (N, N); with a dash, each nonempty
stripped part must parse as an integer, and with both bounds present
start > end is an error.  Error values stand for the raised ValueError. -/
def parse_page_range (s : List Char) : Except (List Char) (Option Int × Option Int) :=
  if s = [] then .ok (none, none)
  else if ('-') ∈ s then
    let a := pyStrip (splitOnceDash s).1
    let b := pyStrip (splitOnceDash s).2
    if a = [] then
      if b = [] then .ok (none, none)
      else
        match parseIntPy b with
        | some y => .ok (none, some y)
        | none => .error ("invalid page range").toList
    else
      match parseIntPy a with
      | none => .error ("invalid page range").toList
      | some x =>
        if b = [] then .ok (some x, none)
        else
          match parseIntPy b with
          | none => .error ("invalid page range").toList
          | some y =>
            if x > y then .error ("start page greater than end page").toList
            else .ok (some x, some y)
  else
    match parseIntPy s with
    | some p => .ok (some p, some p)
    | none => .error ("invalid page number").toList

def isErr {ε α : Type} : Except ε α → Bool
  | .error _ => true
  | .ok _ => false

/-- The claim's error condition: a bound is present but not an integer, or
both bounds are given and start > end. -/
def rangeErrCond (s : List Char) : Bool :=
  if s = [] then false
  else if ('-') ∈ s then
    let a := pyStrip (splitOnceDash s).1
    let b := pyStrip (splitOnceDash s).2
    (¬(a = []) && (parseIntPy a).isNone) ||
    (¬(b = []) && (parseIntPy b).isNone) ||
    (match parseIntPy a, parseIntPy b with
     | some x, some y => decide (x > y)
     | _, _ => false)
  else (parseIntPy s).isNone

/-! ## Range selection and content extraction
(extract_epub_content_by_range, lines 87-149)

The source function resolves the ordered file list itself (spine or fallback
enumeration) and then selects and concatenates a range of it.  The claims
quantify over the resolved ContentFileList, so the embedding takes the list
and the archive's (name, decoded text) entries as inputs and models the range
phase (lines 106-121) and the concatenation loop (lines 125-142). -/

/-- Python list slicing `l[a:b]` for 0-based `a ≥ 0` and arbitrary integer
`b`: negative indices count from the end, out-of-range indices clamp. -/
def pySlice {α : Type} (l : List α) (a b : Int) : List α :=
  let n : Int := l.length
  let a2 : Int := if a < 0 then max 0 (n + a) else min a n
  let b2 : Int := if b < 0 then max 0 (n + b) else min b n
  if a2 < b2 then (l.drop a2.toNat).take (b2 - a2).toNat else []

/-- The range phase (lines 106-121): `start_idx = max(0, start_page - 1)` (0
when omitted), `end_idx = min(total_files, end_page)` (`total_files` when
omitted); `start_idx >= total_files` is the reported start-out-of-range error
(`none` here), otherwise the files slice `[start_idx:end_idx]` is processed. -/
def selectRange (files : List (List Char)) (sp ep : Option Int) :
    Option (List (List Char)) :=
  let n : Int := files.length
  let start_idx : Int :=
    match sp with
    | none => 0
    | some p => max 0 (p - 1)
  let end_idx : Int :=
    match ep with
    | none => n
    | some e => min n e
  if n ≤ start_idx then none
  else some (pySlice files start_idx end_idx)

/-- The archive model: (entry name, decoded text) pairs, `namelist` order. -/
def lookupArchive (archive : List (List Char × List Char)) (name : List Char) :
    Option (List Char) :=
  match archive with
  | [] => none
  | (n, d) :: rest => if n = name then some d else lookupArchive rest name

/-- The concatenation loop (lines 125-142): each selected file present in the
archive contributes its text plus a newline; missing entries are skipped with
a warning. -/
def concatSelected (archive : List (List Char × List Char)) :
    List (List Char) → List Char
  | [] => []
  | f :: rest =>
    match lookupArchive archive f with
    | some d => d ++ '\n' :: concatSelected archive rest
    | none => concatSelected archive rest

/-- Function `extract_epub_content_by_range` over a resolved file list: empty text on
a range error, else the concatenation of the selected files. -/
def extract_epub_content_by_range (archive : List (List Char × List Char))
    (files : List (List Char)) (sp ep : Option Int) : List Char :=
  match selectRange files sp ep with
  | none => []
  | some fs => concatSelected archive fs

/-! ## Tier-2 tokenization (extract_english_words, lines 152-189)

`re.findall(r"\b[a-zA-Z]+(?:[-'][a-zA-Z]+)*\b", content)`.

The scanner below reproduces the `re` engine's behaviour exactly:

* The engine attempts a match at every position, left to right, and resumes
  after the end of each (nonempty) match; a failed attempt advances one
  character.  An attempt can only start at a letter preceded by a non-word
  character (or the string's start): the leading `\b` sits between a word
  character (the first letter) and what precedes.
* Within an attempt every quantifier is greedy and the three character
  classes (letters, `[-']`, everything else) are disjoint, so the candidate
  captures are exactly the well-formed prefixes of the maximal munch
  `letters ([-'] letters)*`, tried longest first.
* The trailing `\b` holds after a candidate iff the next character is not a
  word character.  Every candidate except segment boundaries is followed by a
  letter (fails), and every segment boundary except the maximal munch is
  followed by `-` or `'` (succeeds).  Hence: the maximal munch wins if its
  next character is not a word character; otherwise the maximal munch less
  its final `[-'] letters` segment wins; with a single segment the attempt
  fails and the engine advances one character. -/

/-- Maximal munch of `(?:[-'][a-zA-Z]+)*`: a list of (separator, letters)
segments and the remainder.  Fuel ≥ input length never runs out. -/
def munchSegsF : Nat → List Char → List (Char × List Char) × List Char
  | 0, s => ([], s)
  | _ + 1, [] => ([], [])
  | _ + 1, [c] => ([], [c])
  | f + 1, c :: c2 :: rest =>
    if sepChar c && isAlphaA c2 then
      ((c, (c2 :: rest).takeWhile isAlphaA) ::
          (munchSegsF f ((c2 :: rest).dropWhile isAlphaA)).1,
        (munchSegsF f ((c2 :: rest).dropWhile isAlphaA)).2)
    else ([], c :: c2 :: rest)

/-- The characters a segment list contributes to its token. -/
def segsChars : List (Char × List Char) → List Char
  | [] => []
  | (c, ls) :: rest => c :: (ls ++ segsChars rest)

/-- One match attempt at a position whose leading `\b` already holds: the
maximal munch plus the trailing-`\b` resolution described above.  Returns the
capture and the text after the match. -/
def tokenAt (s : List Char) : Option (List Char × List Char) :=
  let first := s.takeWhile isAlphaA
  if first = [] then none
  else
    let r1 := s.dropWhile isAlphaA
    let segs := (munchSegsF r1.length r1).1
    let rest := (munchSegsF r1.length r1).2
    match rest with
    | [] => some (first ++ segsChars segs, [])
    | c :: cs =>
      if wordChar c then
        match segs.getLast? with
        | some (sc, ls) =>
          some (first ++ segsChars segs.dropLast, sc :: (ls ++ (c :: cs)))
        | none => none
      else some (first ++ segsChars segs, c :: cs)

/-- The findall scan: `prevWord` tracks whether the previous character is a
word character (false at the start of the text). -/
def scanTokensF : Nat → Bool → List Char → List (List Char)
  | 0, _, _ => []
  | _ + 1, _, [] => []
  | f + 1, prevWord, c :: cs =>
    if isAlphaA c && !prevWord then
      match tokenAt (c :: cs) with
      | some (tok, rest) => tok :: scanTokensF f true rest
      | none => scanTokensF f (wordChar c) cs
    else scanTokensF f (wordChar c) cs

def findWordTokens (s : List Char) : List (List Char) :=
  scanTokensF s.length false s

/-- The fixed stop-list shared by both extraction tiers. -/
def stop_words : List (List Char) :=
  [("www").toList, ("http").toList, ("https").toList, ("com").toList,
   ("org").toList, ("net").toList, ("html").toList, ("css").toList,
   ("js").toList]

/-- The shared keep-filter: at least two characters, no digit, not in the
stop-list (the three `continue` tests of lines 167-177 and 262-275). -/
def keepWord (w : List Char) : Bool :=
  if w.length < 2 then false
  else if containsDigit w then false
  else if w ∈ stop_words then false
  else true

/-- Function `extract_english_words` (lines 152-189): tokenize, lowercase each token,
filter, deduplicate keeping first occurrences. -/
def extract_english_words (content : List Char) : List (List Char) :=
  dedupe (((findWordTokens content).map lowerStr).filter keepWord)

/-- The word-token shape `letter+ ([-'] letter+)*` over a letter class, as a
two-state recogniser (`seen` = inside a nonempty letter run). -/
def shapeAux (letter : Char → Bool) : List Char → Bool → Bool
  | [], seen => seen
  | c :: cs, seen =>
    if letter c then shapeAux letter cs true
    else if sepChar c && seen then shapeAux letter cs false
    else false

def wordShape (letter : Char → Bool) (w : List Char) : Bool :=
  shapeAux letter w false

/-- The spec's output-token pattern `^[a-z]+([-'][a-z]+)*$`. -/
def isLowerWordToken (w : List Char) : Bool := wordShape isLowerA w

/-! ## Generic scanning helpers for the regex-driven functions -/

/-- Case-sensitive literal match: the remainder after the literal. -/
def lit : List Char → List Char → Option (List Char)
  | [], s => some s
  | _ :: _, [] => none
  | p :: ps, c :: cs => if c = p then lit ps cs else none

/-- Case-insensitive literal match (re.IGNORECASE, ASCII). -/
def litCI : List Char → List Char → Option (List Char)
  | [], s => some s
  | _ :: _, [] => none
  | p :: ps, c :: cs => if toLowerA c = toLowerA p then litCI ps cs else none

/-- Greedy `\s+`: at least one whitespace character, then the remainder
after the whole run.  All the patterns follow `\s+` with a non-whitespace
literal, so the greedy maximal run is the only viable choice. -/
def ws1 (s : List Char) : Option (List Char) :=
  match s with
  | [] => none
  | c :: cs => if isWS c then some ((c :: cs).dropWhile isWS) else none

/-- The piece `[^>]*>`: the run up to the first '>' and that '>' consumed.  Greedy
`[^>]*` cannot pass a '>' and every shorter extent leaves a non-'>' character
where the literal '>' must match, so the first '>' is the only viable one. -/
def upToGt (s : List Char) : Option (List Char) :=
  match s.dropWhile (fun c => ¬(c = '>')) with
  | _ :: rest => some rest
  | [] => none

/-- Lazy `.*?pat` with re.DOTALL: the remainder after the first occurrence of
`pat` (case-insensitive).  When two such groups chain (`.*?</span>.*?</p>`),
failing past the first occurrence cannot be rescued by a later one, since any
text after a later occurrence also lies after the first. -/
def skipToAfterCI (pat : List Char) : Nat → List Char → Option (List Char)
  | f, s =>
    match litCI pat s with
    | some r => some r
    | none =>
      match f, s with
      | Nat.succ f2, _ :: cs => skipToAfterCI pat f2 cs
      | _, _ => none

/-- Generic non-overlapping findall: try a match at every position, emit its
capture and resume after the match (every match here consumes at least one
character), else advance one character. -/
def findAllF {α : Type} (tryAt : List Char → Option (α × List Char)) :
    Nat → List Char → List α
  | 0, _ => []
  | _ + 1, [] => []
  | f + 1, c :: cs =>
    match tryAt (c :: cs) with
    | some (cap, rest) => cap :: findAllF tryAt f rest
    | none => findAllF tryAt f cs

def findAll {α : Type} (tryAt : List Char → Option (α × List Char))
    (s : List Char) : List α := findAllF tryAt s.length s

/-! ## Tier-1 structured vocabulary extraction
(extract_vocabulary_entries, lines 192-209)

Pattern 1 (re.IGNORECASE | re.DOTALL):
`<p\s+class="bodytext"[^>]*>([a-zA-Z]+(?:[-'][a-zA-Z]+)*)\s*<span\s+class="yinbiao"[^>]*>.*?</span>.*?</p>`

The capture is the maximal munch of its grammar: a shorter well-formed
candidate is always followed by a letter, '-' or the apostrophe, on which the
continuation `\s*<span` (a '<') fails, so only the maximal munch can satisfy
the continuation and backtracking never changes the capture. -/
def matchP1At (s : List Char) : Option (List Char × List Char) :=
  match litCI ("<p").toList s with
  | none => none
  | some s1 =>
  match ws1 s1 with
  | none => none
  | some s2 =>
  match litCI ("class=\"bodytext\"").toList s2 with
  | none => none
  | some s3 =>
  match upToGt s3 with
  | none => none
  | some s4 =>
    let first := s4.takeWhile isAlphaA
    if first = [] then none
    else
      let r1 := s4.dropWhile isAlphaA
      let cap := first ++ segsChars (munchSegsF r1.length r1).1
      match litCI ("<span").toList (((munchSegsF r1.length r1).2).dropWhile isWS) with
      | none => none
      | some s5 =>
      match ws1 s5 with
      | none => none
      | some s6 =>
      match litCI ("class=\"yinbiao\"").toList s6 with
      | none => none
      | some s7 =>
      match upToGt s7 with
      | none => none
      | some s8 =>
      match skipToAfterCI ("</span>").toList s8.length s8 with
      | none => none
      | some s9 =>
      match skipToAfterCI ("</p>").toList s9.length s9 with
      | none => none
      | some s10 => some (cap, s10)

/-- Maximal munch of `(?:\s+[a-zA-Z]+)*` as (whitespace run, letters)
segments.  Greedy iteration: each step needs whitespace then a letter. -/
def munchWordSegsF : Nat → List Char → List (List Char × List Char) × List Char
  | 0, s => ([], s)
  | f + 1, s =>
    match s.takeWhile isWS with
    | [] => ([], s)
    | w =>
      match s.dropWhile isWS with
      | [] => ([], s)
      | c :: r =>
        if isAlphaA c then
          ((w, (c :: r).takeWhile isAlphaA) ::
              (munchWordSegsF f ((c :: r).dropWhile isAlphaA)).1,
            (munchWordSegsF f ((c :: r).dropWhile isAlphaA)).2)
        else ([], s)

/-- Maximal munch of `(?:\s*[-'][a-zA-Z]+)*` as (whitespace run, separator,
letters) segments. -/
def munchPunctSegsF : Nat → List Char → List (List Char × Char × List Char) × List Char
  | 0, s => ([], s)
  | f + 1, s =>
    match s.dropWhile isWS with
    | c :: c2 :: r =>
      if sepChar c && isAlphaA c2 then
        ((s.takeWhile isWS, c, (c2 :: r).takeWhile isAlphaA) ::
            (munchPunctSegsF f ((c2 :: r).dropWhile isAlphaA)).1,
          (munchPunctSegsF f ((c2 :: r).dropWhile isAlphaA)).2)
      else ([], s)
    | _ => ([], s)

def wordSegsChars : List (List Char × List Char) → List Char
  | [] => []
  | (w, ls) :: rest => w ++ ls ++ wordSegsChars rest

def punctSegsChars : List (List Char × Char × List Char) → List Char
  | [] => []
  | (w, c, ls) :: rest => w ++ c :: (ls ++ punctSegsChars rest)

/-- Pattern 2 (re.IGNORECASE | re.DOTALL):
`<p\s+class="bodytext"[^>]*><span\s+class="text-title1"[^>]*>[^<]*</span>\s*([a-zA-Z]+(?:\s+[a-zA-Z]+)*(?:\s*[-'][a-zA-Z]+)*)\s+[一-鿿].*?</p>`

`[^<]*</span>` forces the first '<' to open `</span>`.  The capture is again
the maximal munch of its grammar: any shorter candidate is followed within
the munched region by a letter (`\s+` fails), by `-`/apostrophe (not
whitespace), or by the same whitespace run the continuation would take whose
first non-whitespace character is a letter or separator, not a CJK character;
so only the maximal munch can satisfy `\s+[一-鿿]`.  Giving Q2 iterations
back to Q3 cannot lengthen the munch either: Q3 segments must start with a
separator after the whitespace. -/
def matchP2At (s : List Char) : Option (List Char × List Char) :=
  match litCI ("<p").toList s with
  | none => none
  | some s1 =>
  match ws1 s1 with
  | none => none
  | some s2 =>
  match litCI ("class=\"bodytext\"").toList s2 with
  | none => none
  | some s3 =>
  match upToGt s3 with
  | none => none
  | some s4 =>
  match litCI ("<span").toList s4 with
  | none => none
  | some s5 =>
  match ws1 s5 with
  | none => none
  | some s6 =>
  match litCI ("class=\"text-title1\"").toList s6 with
  | none => none
  | some s7 =>
  match upToGt s7 with
  | none => none
  | some s8 =>
  match litCI ("</span>").toList (s8.dropWhile (fun c => ¬(c = '<'))) with
  | none => none
  | some s9 =>
    let s10 := s9.dropWhile isWS
    let first := s10.takeWhile isAlphaA
    if first = [] then none
    else
      let r1 := s10.dropWhile isAlphaA
      let r2 := (munchWordSegsF r1.length r1).2
      let cap := first ++ wordSegsChars (munchWordSegsF r1.length r1).1 ++
        punctSegsChars (munchPunctSegsF r2.length r2).1
      let r3 := (munchPunctSegsF r2.length r2).2
      match r3.takeWhile isWS with
      | [] => none
      | _ =>
        match r3.dropWhile isWS with
        | [] => none
        | c :: r4 =>
          if isCJK c then
            match skipToAfterCI ("</p>").toList r4.length r4 with
            | some rest => some (cap, rest)
            | none => none
          else none

/-- Function `extract_vocabulary_entries` (lines 192-209): the pattern-1 captures
followed by the pattern-2 captures. -/
def extract_vocabulary_entries (content : List Char) : List (List Char) :=
  findAll matchP1At content ++ findAll matchP2At content

/-! ## Fallback HTML cleaning (clean_html_content, lines 212-245)

Each `re.sub` pass is a left-to-right scan replacing non-overlapping matches
and advancing one character after a failed attempt.  Each `tryX` function
below decides a match attempt at the current position, returning the
replacement text and the remainder after the match. -/

/-- One substitution scan: fuel ≥ input length suffices since every match
consumes at least one character. -/
def subScanF (tryAt : List Char → Option (List Char × List Char)) :
    Nat → List Char → List Char
  | 0, s => s
  | _ + 1, [] => []
  | f + 1, c :: cs =>
    match tryAt (c :: cs) with
    | some (rep, rest) => rep ++ subScanF tryAt f rest
    | none => c :: subScanF tryAt f cs

def subScan (tryAt : List Char → Option (List Char × List Char))
    (s : List Char) : List Char := subScanF tryAt s.length s

/-- Pass `<\?xml[^>]*\?>` → empty (case-sensitive).  `[^>]*` stops at the first
'>', so the `?>` literal can only match there: the run up to the first '>'
must end in '?'. -/
def tryXmlDecl (s : List Char) : Option (List Char × List Char) :=
  match lit ("<?xml").toList s with
  | none => none
  | some r =>
    match r.dropWhile (fun c => ¬(c = '>')) with
    | _ :: rest =>
      match (r.takeWhile (fun c => ¬(c = '>'))).getLast? with
      | some q => if q = '?' then some ([], rest) else none
      | none => none
    | [] => none

/-- Pass `<!DOCTYPE[^>]*>` → empty (case-sensitive). -/
def tryDoctype (s : List Char) : Option (List Char × List Char) :=
  match lit ("<!DOCTYPE").toList s with
  | none => none
  | some r =>
    match upToGt r with
    | some rest => some ([], rest)
    | none => none

/-- Pass `<style[^>]*>.*?</style>` → empty (DOTALL, IGNORECASE). -/
def tryStyleBlock (s : List Char) : Option (List Char × List Char) :=
  match litCI ("<style").toList s with
  | none => none
  | some r =>
    match upToGt r with
    | none => none
    | some r2 =>
      match skipToAfterCI ("</style>").toList r2.length r2 with
      | some rest => some ([], rest)
      | none => none

/-- Pass `<script[^>]*>.*?</script>` → empty (DOTALL, IGNORECASE). -/
def tryScriptBlock (s : List Char) : Option (List Char × List Char) :=
  match litCI ("<script").toList s with
  | none => none
  | some r =>
    match upToGt r with
    | none => none
    | some r2 =>
      match skipToAfterCI ("</script>").toList r2.length r2 with
      | some rest => some ([], rest)
      | none => none

/-- Pass `<[^>]+>` → one space: a '<', at least one non-'>' character, then the
first '>'. -/
def tryTag (s : List Char) : Option (List Char × List Char) :=
  match s with
  | '<' :: cs =>
    if cs.takeWhile (fun c => ¬(c = '>')) = [] then none
    else
      match cs.dropWhile (fun c => ¬(c = '>')) with
      | _ :: rest => some ([' '], rest)
      | [] => none
  | _ => none

/-- Python `str.replace(entity, replacement)`: replace every non-overlapping
occurrence left to right (case-sensitive). -/
def strReplaceF (pat rep : List Char) : Nat → List Char → List Char
  | 0, s => s
  | _ + 1, [] => []
  | f + 1, c :: cs =>
    match lit pat (c :: cs) with
    | some rest => rep ++ strReplaceF pat rep f rest
    | none => c :: strReplaceF pat rep f cs

def strReplace (pat rep s : List Char) : List Char :=
  strReplaceF pat rep s.length s

/-- The fixed entity table (lines 230-234), applied in insertion order. -/
def entity_table : List (List Char × List Char) :=
  [(("&amp;").toList, ("&").toList), (("&lt;").toList, ("<").toList),
   (("&gt;").toList, (">").toList), (("&quot;").toList, ("\"").toList),
   (("&apos;").toList, [apostropheChar]), (("&nbsp;").toList, (" ").toList),
   (("&mdash;").toList, ("-").toList), (("&ndash;").toList, ("-").toList),
   (("&rsquo;").toList, [apostropheChar]), (("&lsquo;").toList, [apostropheChar]),
   (("&rdquo;").toList, ("\"").toList), (("&ldquo;").toList, ("\"").toList),
   (("&hellip;").toList, ("...").toList)]

def applyEntityTable (s : List Char) : List Char :=
  entity_table.foldl (fun acc pr => strReplace pr.1 pr.2 acc) s

/-- Pass `&[a-zA-Z0-9#]+;` → one space. -/
def entChar (c : Char) : Bool := isAlphaA c || isDigitA c || c = '#'

def tryEntity (s : List Char) : Option (List Char × List Char) :=
  match s with
  | '&' :: cs =>
    if cs.takeWhile entChar = [] then none
    else
      match cs.dropWhile entChar with
      | ';' :: rest => some ([' '], rest)
      | _ => none
  | _ => none

/-- Pass `\s+` → one space. -/
def tryWSRun (s : List Char) : Option (List Char × List Char) :=
  match s with
  | c :: cs => if isWS c then some ([' '], (c :: cs).dropWhile isWS) else none
  | [] => none

/-- Function `clean_html_content` (lines 212-245): the substitution passes in source
order, then a final strip. -/
def clean_html_content (s : List Char) : List Char :=
  pyStrip (subScan tryWSRun (subScan tryEntity (applyEntityTable
    (subScan tryTag (subScan tryScriptBlock (subScan tryStyleBlock
      (subScan tryDoctype (subScan tryXmlDecl s))))))))

/-! ## The two-tier word extractor
(extract_words_from_content, lines 248-292) -/

/-- The tier-1 post-filter (lines 258-275): strip each capture, then apply
the shared keep-filter.  Note: unlike tier 2, the captures are NOT
lowercased. -/
def vocab_filter (ws : List (List Char)) : List (List Char) :=
  (ws.map pyStrip).filter keepWord

/-- Function `extract_words_from_content`: tier-1 captures, when any, filtered and
deduplicated; otherwise the tier-2 fallback on the cleaned content. -/
def extract_words_from_content (content : List Char) : List (List Char) :=
  if extract_vocabulary_entries content = [] then
    extract_english_words (clean_html_content content)
  else dedupe (vocab_filter (extract_vocabulary_entries content))

/-! ## The extractor's main flow (main, lines 366-487) after range parsing:
extract content (empty → exit 1), extract words (empty → exit 1), save and
finish with exit code 0.  `save_words_to_file` (lines 295-305) catches any
write error and only prints, so the flag below records whether the file was
written without affecting control flow. -/

def save_words_to_file (io_ok : Bool) (_words : List (List Char)) : Bool := io_ok

structure RunOutcome where
  exit_code : Nat
  output_written : Bool
  completed : Bool
deriving DecidableEq

/-- The tail of `main` from content extraction onward. -/
def main_run (archive : List (List Char × List Char)) (files : List (List Char))
    (sp ep : Option Int) (io_ok : Bool) : RunOutcome :=
  let content := extract_epub_content_by_range archive files sp ep
  if content = [] then ⟨1, false, false⟩
  else
    let words := extract_words_from_content content
    if words = [] then ⟨1, false, false⟩
    else ⟨0, save_words_to_file io_ok words, true⟩

/-! ## Manifest item extraction (get_epub_spine, lines 53-65)

`re.findall(r'<item[^>]+id="([^"]+)"[^>]+href="([^"]+)"', opf_content)`
(no flags: case-sensitive).  The two `[^>]+` are greedy with real
backtracking: the engine tries the longest extent first and shortens it until
the following literal and the rest of the pattern match.  `[^"]+"` after each
opening quote is forced (the capture cannot cross a quote and every shorter
extent leaves a non-quote character where the closing quote must match). -/

/-- The piece `[^"]+"`: the nonempty run up to the first '"', and that '"' consumed. -/
def quotedVal (s : List Char) : Option (List Char × List Char) :=
  match s.dropWhile (fun c => ¬(c = '"')) with
  | _ :: rest =>
    if s.takeWhile (fun c => ¬(c = '"')) = [] then none
    else some (s.takeWhile (fun c => ¬(c = '"')), rest)
  | [] => none

/-- Greedy `[^>]+` then a continuation: try consuming k characters for k from
the non-'>' run's length down to 1. -/
def tryDrops {α : Type} (s : List Char) (cont : List Char → Option α) :
    Nat → Option α
  | 0 => none
  | k + 1 =>
    match cont (s.drop (k + 1)) with
    | some a => some a
    | none => tryDrops s cont k

/-- One match attempt of the item pattern at the current position. -/
def matchItemAt (s : List Char) :
    Option ((List Char × List Char) × List Char) :=
  match lit ("<item").toList s with
  | none => none
  | some s1 =>
    tryDrops s1 (fun s2 =>
      match lit ("id=\"").toList s2 with
      | none => none
      | some s3 =>
        match quotedVal s3 with
        | none => none
        | some (idv, s4) =>
          tryDrops s4 (fun s5 =>
            match lit ("href=\"").toList s5 with
            | none => none
            | some s6 =>
              match quotedVal s6 with
              | none => none
              | some (hrefv, s7) => some ((idv, hrefv), s7))
            (s4.takeWhile (fun c => ¬(c = '>'))).length)
      (s1.takeWhile (fun c => ¬(c = '>'))).length

/-- The manifest findall over an OPF document: (id, href) capture pairs. -/
def findItems (opf : List Char) : List (List Char × List Char) :=
  findAll matchItemAt opf

/-- Python `os.path.join(opf_dir, href)` for the relative hrefs the claims exercise
(lines 58-65); with an empty package directory the href itself. -/
def path_join (d h : List Char) : List Char :=
  if d = [] then h else d ++ '/' :: h

/-- The manifest entries built from an OPF document (lines 53-65): each
captured (id, href) with the href resolved against the package directory. -/
def manifest_entries (opf_dir : List Char) (opf : List Char) :
    List (List Char × List Char) :=
  (findItems opf).map (fun pr => (pr.1, path_join opf_dir pr.2))

/-! ## Concrete inputs used by the claim theorems -/

def c1content : List Char :=
  ("<p class=\"bodytext\">Apple <span class=\"yinbiao\">/ae/</span> n. fruit</p>").toList

def c2content : List Char :=
  ("<p class=\"bodytext\">apple <span class=\"yinbiao\">ae</span> n.</p> other prose words").toList

def opf_id_first : List Char := ("<item id=\"x\" href=\"a.html\"/>").toList

def opf_href_first : List Char := ("<item href=\"a.html\" id=\"x\"/>").toList

def opf_two : List Char :=
  ("<manifest><item id=\"a\" href=\"one.html\"/><item href=\"two.html\" id=\"b\"/></manifest>").toList

def c10archive : List (List Char × List Char) :=
  [(("a.xhtml").toList, ("hello world little cat").toList)]

/-! ## THEOREMS -/

theorem mem_of_mem_dedupeAux {α : Type} [DecidableEq α] {x : α} :
    ∀ (seen l : List α), x ∈ dedupeAux seen l → x ∈ l := by
  intro seen l
  induction l generalizing seen with
  | nil => intro h; simp [dedupeAux] at h
  | cons w ws ih =>
    intro h
    simp only [dedupeAux] at h
    split at h
    · exact List.mem_cons_of_mem _ (ih seen h)
    · rcases List.mem_cons.1 h with h1 | h2
      · exact h1 ▸ List.mem_cons_self _ _
      · exact List.mem_cons_of_mem _ (ih _ h2)

theorem mem_of_mem_dedupe {α : Type} [DecidableEq α] {x : α} {l : List α}
    (h : x ∈ dedupe l) : x ∈ l := mem_of_mem_dedupeAux [] l h

/-- One-pass selection with a `seen` set equals filtering then deduplicating. -/
theorem common_loop_eq_dedupe (bset : List (List Char)) :
    ∀ (l seen : List (List Char)),
      common_loop bset seen l = dedupeAux seen (l.filter (fun w => w ∈ bset)) := by
  intro l
  induction l with
  | nil => intro seen; simp [common_loop, dedupeAux]
  | cons w ws ih =>
    intro seen
    by_cases hb : w ∈ bset
    · by_cases hs : w ∈ seen
      · simp [common_loop, hb, hs, List.filter_cons, dedupeAux, ih]
      · simp [common_loop, hb, hs, List.filter_cons, dedupeAux, ih]
    · simp [common_loop, hb, List.filter_cons, ih]

/-- Claim C8: the common-word finder produces exactly
`dedupe_in_order([w for w in A if w in set(B)])` — A-order, intersected with
B, deduplicated, blank lines ignored; on A = [cat, dog, bird, cat, fish] and
B = [dog, fish, owl] the result is [dog, fish]; and the returned count is the
result's length. -/
theorem claim_C8_common_words :
    (∀ lines1 lines2 : List (List Char),
        find_common_core lines1 lines2 =
          dedupe ((read_words_lines lines1).filter
            (fun w => w ∈ read_words_lines lines2))) ∧
    find_common_core linesA linesB = [("dog").toList, ("fish").toList] ∧
    (∀ (fs : List (List Char × List (List Char))) (p1 p2 outp : List Char)
        (l1 l2 : List (List Char)),
        fsLookup fs p1 = some l1 → fsLookup fs p2 = some l2 →
          (find_common_words fs p1 p2 outp).1 =
            ((find_common_core l1 l2).length : Int)) := by
  refine ⟨?_, by decide, ?_⟩
  · intro lines1 lines2
    exact common_loop_eq_dedupe _ _ _
  · intro fs p1 p2 outp l1 l2 h1 h2
    simp [find_common_words, h1, h2]

/-- Claim C9: a missing input file makes `find_common_words` return the
sentinel -1 and leaves the file system unchanged (no output file created or
modified). -/
theorem claim_C9_missing_input (fs : List (List Char × List (List Char)))
    (p1 p2 outp : List Char)
    (h : fsLookup fs p1 = none ∨ fsLookup fs p2 = none) :
    find_common_words fs p1 p2 outp = (-1, fs) := by
  rcases h with h1 | h2
  · simp [find_common_words, h1]
  · cases hl : fsLookup fs p1 with
    | none => simp [find_common_words, hl]
    | some l1 => simp [find_common_words, hl, h2]

/-- Witness for C9 at a concrete file system missing `file2.txt`. -/
theorem claim_C9_witness :
    find_common_words c9fs ("file1.txt").toList ("file2.txt").toList
      ("common_words.txt").toList = (-1, c9fs) :=
  claim_C9_missing_input c9fs _ _ _ (Or.inr (by decide))

/-- Claim C3: the content file list has length equal to the number of spine
idrefs that exist in the manifest and resolve to an HTML-like path, it
preserves spine order (it is the spine's filterMap through the manifest), and
idrefs absent from the manifest are silently dropped. -/
theorem claim_C3_spine_resolution :
    ∀ (spine : List (List Char)) (manifest : List (List Char × List Char)),
      (build_ordered_files spine manifest).length =
        (spine.filter (spineKeep manifest)).length ∧
      build_ordered_files spine manifest =
        spine.filterMap (fun i =>
          match dictLookup manifest i with
          | some p => if isHtmlLike p then some p else none
          | none => none) := by
  intro spine manifest
  induction spine with
  | nil => exact ⟨rfl, rfl⟩
  | cons i rest ih =>
    obtain ⟨ih1, ih2⟩ := ih
    cases h : dictLookup manifest i with
    | none =>
      constructor
      · simp [build_ordered_files, List.filter_cons, spineKeep, h, ih1]
      · simp [build_ordered_files, List.filterMap_cons, h, ih2]
    | some p =>
      by_cases hp : isHtmlLike p
      · constructor
        · simp [build_ordered_files, List.filter_cons, spineKeep, h, hp, ih1]
        · simp [build_ordered_files, List.filterMap_cons, h, hp, ih2]
      · constructor
        · simp [build_ordered_files, List.filter_cons, spineKeep, h, hp, ih1]
        · simp [build_ordered_files, List.filterMap_cons, h, hp, ih2]

theorem parseIntPy_nil : parseIntPy [] = none := rfl

/-- Claim C5: `parse_page_range` maps "5" to (5,5), "5-10" to (5,10), "5-" to
(5,None), "-10" to (None,10), and errors exactly when a bound is present but
not an integer or both bounds are given with start > end (so "10-5" errors). -/
theorem claim_C5_parse_page_range :
    parse_page_range ("5").toList = .ok (some 5, some 5) ∧
    parse_page_range ("5-10").toList = .ok (some 5, some 10) ∧
    parse_page_range ("5-").toList = .ok (some 5, none) ∧
    parse_page_range ("-10").toList = .ok (none, some 10) ∧
    isErr (parse_page_range ("10-5").toList) = true ∧
    (∀ s : List Char, isErr (parse_page_range s) = rangeErrCond s) := by
  refine ⟨by rfl, by rfl, by rfl, by rfl, by rfl, ?_⟩
  intro s
  unfold parse_page_range rangeErrCond
  by_cases h0 : s = []
  · simp [h0, isErr]
  · simp only [h0, if_false]
    by_cases hd : ('-') ∈ s
    · simp only [hd, if_true]
      cases ha : pyStrip (splitOnceDash s).1 with
      | nil =>
        cases hb : pyStrip (splitOnceDash s).2 with
        | nil => simp [isErr, parseIntPy_nil]
        | cons bc bcs =>
          cases hpb : parseIntPy (bc :: bcs) with
          | none => simp [isErr, parseIntPy_nil, hpb]
          | some y => simp [isErr, parseIntPy_nil, hpb]
      | cons ac acs =>
        cases hpa : parseIntPy (ac :: acs) with
        | none => simp [isErr, hpa]
        | some x =>
          cases hb : pyStrip (splitOnceDash s).2 with
          | nil => simp [isErr, hpa, parseIntPy_nil]
          | cons bc bcs =>
            cases hpb : parseIntPy (bc :: bcs) with
            | none => simp [isErr, hpa, hpb]
            | some y =>
              by_cases hxy : x > y
              · simp [isErr, hpa, hpb, hxy]
              · simp [isErr, hpa, hpb, hxy]
    · rw [if_neg hd, if_neg hd]
      cases hp : parseIntPy s with
      | none => simp [isErr, hp]
      | some p => simp [isErr, hp]

theorem sep_not_alpha {c : Char} (h : sepChar c = true) : isAlphaA c = false := by
  simp only [sepChar, Bool.or_eq_true, decide_eq_true_eq] at h
  rcases h with h | h <;> subst h <;> decide

theorem goodSegs_munch : ∀ (f : Nat) (s : List Char) (p : Char × List Char),
    p ∈ (munchSegsF f s).1 →
      sepChar p.1 = true ∧ p.2 ≠ [] ∧ ∀ c ∈ p.2, isAlphaA c = true := by
  intro f
  induction f with
  | zero => intro s p hp; simp [munchSegsF] at hp
  | succ f ih =>
    intro s p hp
    match s with
    | [] => simp [munchSegsF] at hp
    | [c] => simp [munchSegsF] at hp
    | c :: c2 :: rest =>
      simp only [munchSegsF] at hp
      split at hp
      · rcases List.mem_cons.1 hp with h1 | h2
        · subst h1
          rename_i hcond
          rw [Bool.and_eq_true] at hcond
          refine ⟨hcond.1, ?_, ?_⟩
          · have : (c2 :: rest).takeWhile isAlphaA = c2 :: rest.takeWhile isAlphaA := by
              rw [List.takeWhile_cons, if_pos hcond.2]
            simp [this]
          · intro x hx
            exact List.mem_takeWhile_imp hx
        · exact ih _ _ h2
      · simp at hp

theorem shapeAux_letters_append (r : List Char) :
    ∀ (ls : List Char) (b : Bool), ls ≠ [] → (∀ c ∈ ls, isAlphaA c = true) →
      shapeAux isAlphaA (ls ++ r) b = shapeAux isAlphaA r true := by
  intro ls
  induction ls with
  | nil => intro b h; exact absurd rfl h
  | cons c cs ih =>
    intro b hne hall
    have hc : isAlphaA c = true := hall c (List.mem_cons_self _ _)
    by_cases hcs : cs = []
    · subst hcs
      simp [shapeAux, hc]
    · have := ih true hcs (fun x hx => hall x (List.mem_cons_of_mem _ hx))
      simp [shapeAux, hc, this]

theorem shapeAux_segs : ∀ (segs : List (Char × List Char)),
    (∀ p ∈ segs, sepChar p.1 = true ∧ p.2 ≠ [] ∧ ∀ c ∈ p.2, isAlphaA c = true) →
      shapeAux isAlphaA (segsChars segs) true = true := by
  intro segs
  induction segs with
  | nil => intro _; rfl
  | cons p rest ih =>
    intro hall
    obtain ⟨hsep, hne, hmem⟩ := hall p (List.mem_cons_self _ _)
    obtain ⟨c, ls⟩ := p
    simp only [segsChars]
    have hna : isAlphaA c = false := sep_not_alpha hsep
    rw [shapeAux]
    rw [hna]
    simp only [Bool.false_eq_true, if_false, hsep, Bool.true_and, if_pos rfl]
    rw [shapeAux_letters_append _ ls false hne hmem]
    exact ih (fun q hq => hall q (List.mem_cons_of_mem _ hq))

theorem wordShape_parts {first : List Char} {segs : List (Char × List Char)}
    (h1 : first ≠ []) (h2 : ∀ c ∈ first, isAlphaA c = true)
    (h3 : ∀ p ∈ segs, sepChar p.1 = true ∧ p.2 ≠ [] ∧ ∀ c ∈ p.2, isAlphaA c = true) :
    wordShape isAlphaA (first ++ segsChars segs) = true := by
  unfold wordShape
  rw [shapeAux_letters_append _ first false h1 h2]
  exact shapeAux_segs segs h3

theorem tokenAt_shape {s tok rest : List Char}
    (h : tokenAt s = some (tok, rest)) : wordShape isAlphaA tok = true := by
  unfold tokenAt at h
  by_cases hf : s.takeWhile isAlphaA = []
  · simp [hf] at h
  · simp only [hf, if_false] at h
    have hfirst : ∀ c ∈ s.takeWhile isAlphaA, isAlphaA c = true :=
      fun c hc => List.mem_takeWhile_imp hc
    have hgood := goodSegs_munch (s.dropWhile isAlphaA).length (s.dropWhile isAlphaA)
    cases hrest : (munchSegsF (s.dropWhile isAlphaA).length (s.dropWhile isAlphaA)).2 with
    | nil =>
      rw [hrest] at h
      simp only [Option.some.injEq, Prod.mk.injEq] at h
      rw [← h.1]
      exact wordShape_parts hf hfirst hgood
    | cons c cs =>
      rw [hrest] at h
      by_cases hwc : wordChar c = true
      · simp only [hwc, if_true] at h
        cases hlast : (munchSegsF (s.dropWhile isAlphaA).length (s.dropWhile isAlphaA)).1.getLast? with
        | none => rw [hlast] at h; exact Option.noConfusion h
        | some pr =>
          rw [hlast] at h
          obtain ⟨sc, ls⟩ := pr
          simp only [Option.some.injEq, Prod.mk.injEq] at h
          rw [← h.1]
          refine wordShape_parts hf hfirst ?_
          intro p hp
          exact hgood p (List.Sublist.mem hp (List.dropLast_sublist _))
      · simp only [hwc, Bool.false_eq_true, if_false, Option.some.injEq, Prod.mk.injEq] at h
        rw [← h.1]
        exact wordShape_parts hf hfirst hgood

theorem scanTokens_shape : ∀ (f : Nat) (b : Bool) (s : List Char) (tok : List Char),
    tok ∈ scanTokensF f b s → wordShape isAlphaA tok = true := by
  intro f
  induction f with
  | zero => intro b s tok h; simp [scanTokensF] at h
  | succ f ih =>
    intro b s tok h
    match s with
    | [] => simp [scanTokensF] at h
    | c :: cs =>
      simp only [scanTokensF] at h
      split at h
      · cases htok : tokenAt (c :: cs) with
        | none => rw [htok] at h; exact ih _ _ _ h
        | some pr =>
          rw [htok] at h
          obtain ⟨tk, rest⟩ := pr
          rcases List.mem_cons.1 h with h1 | h2
          · exact h1 ▸ tokenAt_shape htok
          · exact ih _ _ _ h2
      · exact ih _ _ _ h

theorem isLowerA_ofNat_shift : ∀ n : Nat, 65 ≤ n → n ≤ 90 →
    isLowerA (Char.ofNat (n + 32)) = true := by
  intro n h1 h2
  interval_cases n <;> decide

theorem isLowerA_toLowerA {c : Char} (h : isAlphaA c = true) :
    isLowerA (toLowerA c) = true := by
  unfold toLowerA
  by_cases hu : isUpperA c = true
  · rw [if_pos hu]
    simp only [isUpperA, Bool.and_eq_true, decide_eq_true_eq] at hu
    exact isLowerA_ofNat_shift c.toNat hu.1 hu.2
  · rw [if_neg hu]
    simp only [isAlphaA, Bool.or_eq_true] at h
    rcases h with h | h
    · exact absurd h hu
    · exact h

theorem toLowerA_sep {c : Char} (h : sepChar c = true) : toLowerA c = c := by
  simp only [sepChar, Bool.or_eq_true, decide_eq_true_eq] at h
  rcases h with h | h <;> subst h <;> decide

theorem sep_not_lower {c : Char} (h : sepChar c = true) : isLowerA c = false := by
  simp only [sepChar, Bool.or_eq_true, decide_eq_true_eq] at h
  rcases h with h | h <;> subst h <;> decide

theorem shapeAux_lower : ∀ (l : List Char) (b : Bool),
    shapeAux isAlphaA l b = true → shapeAux isLowerA (lowerStr l) b = true := by
  intro l
  induction l with
  | nil => intro b h; exact h
  | cons c cs ih =>
    intro b h
    rw [shapeAux] at h
    by_cases ha : isAlphaA c = true
    · rw [ha, if_pos rfl] at h
      have hlow : isLowerA (toLowerA c) = true := isLowerA_toLowerA ha
      simp only [lowerStr, List.map_cons]
      rw [shapeAux, hlow, if_pos rfl]
      exact ih true h
    · simp only [ha, Bool.false_eq_true, if_false] at h
      split at h
      · rename_i hcond
        rw [Bool.and_eq_true] at hcond
        have hsep := hcond.1
        simp only [lowerStr, List.map_cons]
        rw [shapeAux, toLowerA_sep hsep, sep_not_lower hsep]
        simp only [Bool.false_eq_true, if_false, hsep, hcond.2, Bool.true_and, if_pos rfl]
        exact ih false h
      · exact absurd h (by simp)

theorem extract_english_words_shape {content w : List Char}
    (h : w ∈ extract_english_words content) : isLowerWordToken w = true := by
  unfold extract_english_words at h
  have h2 := mem_of_mem_dedupe h
  have h3 := (List.mem_filter.1 h2).1
  obtain ⟨tok, htok, hw⟩ := List.mem_map.1 h3
  have hshape := scanTokens_shape _ _ _ _ htok
  rw [← hw]
  exact shapeAux_lower _ _ hshape

theorem keepWord_spec {w : List Char} (h : keepWord w = true) :
    2 ≤ w.length ∧ containsDigit w = false ∧ ¬(w ∈ stop_words) := by
  unfold keepWord at h
  split at h
  · exact absurd h (by simp)
  · split at h
    · exact absurd h (by simp)
    · split at h
      · exact absurd h (by simp)
      · rename_i h1 h2 h3
        refine ⟨by omega, ?_, h3⟩
        simp only [Bool.not_eq_true] at h2
        exact h2

theorem extract_english_words_keep {content w : List Char}
    (h : w ∈ extract_english_words content) : keepWord w = true :=
  (List.mem_filter.1 (mem_of_mem_dedupe h)).2

/-- Claim C1 counterexample: on a concrete vocabulary-book input the tier-1
path emits the capture with its original capitalisation, so the output token
Apple does not match the lowercase pattern the claim asserts. -/
theorem claim_C1_counterexample :
    extract_words_from_content c1content = [("Apple").toList] ∧
    isLowerWordToken (("Apple").toList) = false := by
  constructor
  · decide
  · decide

/-- Claim C1 (amended): every output token of `extract_words_from_content`
has length at least 2, contains no digit, and is not in the stop-list; tokens
produced by the tier-2 fallback (tier 1 empty) additionally match the pattern
`^[a-z]+([-'][a-z]+)*$`.  Tier-1 captures are not lowercased and (via the
Shape-B pattern) may contain internal whitespace, so they need not match that
pattern. -/
theorem claim_C1_amended (content w : List Char)
    (h : w ∈ extract_words_from_content content) :
    2 ≤ w.length ∧ containsDigit w = false ∧ ¬(w ∈ stop_words) ∧
      (extract_vocabulary_entries content = [] → isLowerWordToken w = true) := by
  unfold extract_words_from_content at h
  by_cases hv : extract_vocabulary_entries content = []
  · rw [if_pos hv] at h
    have hk := keepWord_spec (extract_english_words_keep h)
    exact ⟨hk.1, hk.2.1, hk.2.2, fun _ => extract_english_words_shape h⟩
  · rw [if_neg hv] at h
    have hk := keepWord_spec (List.mem_filter.1 (mem_of_mem_dedupe h)).2
    exact ⟨hk.1, hk.2.1, hk.2.2, fun hc => absurd hc hv⟩

/-- Witness for claim C1 (amended) at a concrete tier-2 input. -/
theorem claim_C1_witness :
    (("hello").toList ∈ extract_words_from_content (("hello world").toList)) ∧
    (2 ≤ (("hello").toList).length ∧ containsDigit (("hello").toList) = false ∧
      ¬((("hello").toList) ∈ stop_words) ∧
      (extract_vocabulary_entries (("hello world").toList) = [] →
        isLowerWordToken (("hello").toList) = true)) :=
  ⟨by decide, claim_C1_amended _ _ (by decide)⟩

/-- Claim C2: whenever tier-1 structured extraction yields at least one raw
match, the result of `extract_words_from_content` is exactly the
post-processed tier-1 capture list — the tier-2 fallback is never consulted,
and every output token is the strip of some tier-1 capture (so no token of
the surrounding generic prose appears). -/
theorem claim_C2_tier1_exclusive (content : List Char)
    (h : ¬(extract_vocabulary_entries content = [])) :
    extract_words_from_content content =
      dedupe (vocab_filter (extract_vocabulary_entries content)) ∧
    ∀ w ∈ extract_words_from_content content,
      ∃ v ∈ extract_vocabulary_entries content, w = pyStrip v := by
  have he : extract_words_from_content content =
      dedupe (vocab_filter (extract_vocabulary_entries content)) := by
    unfold extract_words_from_content
    rw [if_neg h]
  refine ⟨he, ?_⟩
  intro w hw
  rw [he] at hw
  obtain ⟨v, hv, hveq⟩ :=
    List.mem_map.1 (List.mem_filter.1 (mem_of_mem_dedupe hw)).1
  exact ⟨v, hv, hveq.symm⟩

/-- Witness for claim C2 at a concrete input holding one Shape-A vocabulary
entry surrounded by prose. -/
theorem claim_C2_witness :
    ¬(extract_vocabulary_entries c2content = []) ∧
    (extract_words_from_content c2content =
        dedupe (vocab_filter (extract_vocabulary_entries c2content)) ∧
      ∀ w ∈ extract_words_from_content c2content,
        ∃ v ∈ extract_vocabulary_entries c2content, w = pyStrip v) :=
  ⟨by decide, claim_C2_tier1_exclusive c2content (by decide)⟩

/-- Claim C4 counterexample: the manifest regex requires the id attribute
before the href attribute, so an item written href-first yields no manifest
entry while the same item id-first yields (x, a.html). -/
theorem claim_C4_counterexample :
    manifest_entries [] opf_id_first = [(("x").toList, ("a.html").toList)] ∧
    manifest_entries [] opf_href_first = [] ∧
    ¬(manifest_entries [] opf_href_first = manifest_entries [] opf_id_first) := by
  refine ⟨by decide, by decide, by decide⟩

/-- Claim C4 (amended): manifest extraction recovers an item's (id, href)
pair only when id precedes href in the item tag's markup; an item written
href-before-id is silently dropped (here within a two-item manifest), and
hrefs resolve against the package directory. -/
theorem claim_C4_amended :
    manifest_entries [] opf_two = [(("a").toList, ("one.html").toList)] ∧
    manifest_entries (("OEBPS").toList) opf_id_first =
      [(("x").toList, ("OEBPS/a.html").toList)] := by
  refine ⟨by decide, by decide⟩

/-- Claim C6 counterexample: on the empty ContentFileList, full-range
selection takes the start-out-of-range error path (start index 0 is not
below the total 0) instead of returning the list unchanged. -/
theorem claim_C6_counterexample :
    selectRange ([] : List (List Char)) none none = none ∧
    ¬(selectRange ([] : List (List Char)) none none = some []) := by
  refine ⟨by decide, by decide⟩

theorem pySlice_zero_len {α : Type} (l : List α) :
    pySlice l 0 (l.length : Int) = l := by
  by_cases h0 : l = []
  · subst h0; simp [pySlice]
  · have hn : 0 < l.length := List.length_pos.2 h0
    have hn2 : (0 : Int) < (l.length : Int) := by exact_mod_cast hn
    simp only [pySlice]
    rw [if_neg (show ¬((0:Int) < 0) by omega),
      if_neg (show ¬((l.length : Int) < 0) by omega)]
    rw [min_eq_left (le_of_lt hn2), min_self]
    rw [if_pos hn2]
    simp

/-- Claim C6 (amended): for every nonempty ContentFileList, range selection
with both bounds omitted returns the whole list unchanged (the empty list
instead reports a range error), and an end bound beyond the list's length is
clamped down to it: selection with end e > N equals selection with end N, for
every list and start bound. -/
theorem claim_C6_amended :
    (∀ files : List (List Char), ¬(files = []) →
        selectRange files none none = some files) ∧
    (∀ (files : List (List Char)) (sp : Option Int) (e : Int),
        (files.length : Int) < e →
          selectRange files sp (some e) =
            selectRange files sp (some (files.length : Int))) := by
  constructor
  · intro files hne
    have hn : 0 < files.length := List.length_pos.2 hne
    have hn2 : (0 : Int) < (files.length : Int) := by exact_mod_cast hn
    simp only [selectRange]
    rw [if_neg (show ¬((files.length : Int) ≤ 0) by omega)]
    rw [pySlice_zero_len]
  · intro files sp e h
    simp only [selectRange]
    rw [min_eq_left (show (files.length : Int) ≤ e by omega), min_self]

/-- Witness for claim C6 (amended) at a one-element list and end bound 5. -/
theorem claim_C6_witness :
    (¬(([("ab").toList] : List (List Char)) = []) ∧
      selectRange [("ab").toList] none none = some [("ab").toList]) ∧
    ((([("ab").toList] : List (List Char)).length : Int) < 5 ∧
      selectRange [("ab").toList] none (some 5) =
        selectRange [("ab").toList] none (some (([("ab").toList] : List (List Char)).length : Int))) :=
  ⟨⟨by decide, claim_C6_amended.1 [("ab").toList] (by decide)⟩,
   ⟨by decide, claim_C6_amended.2 [("ab").toList] none 5 (by decide)⟩⟩

/-- Claim C7: when the 1-based start bound exceeds the ContentFileList's
length, content extraction reports the range error and produces no content,
and the run is fatal: exit code 1, nothing written, main's tail not reached —
for any archive, end bound and output-write disposition. -/
theorem claim_C7_start_beyond (archive : List (List Char × List Char))
    (files : List (List Char)) (st : Int) (ep : Option Int) (io_ok : Bool)
    (h : (files.length : Int) < st) :
    extract_epub_content_by_range archive files (some st) ep = [] ∧
    main_run archive files (some st) ep io_ok = ⟨1, false, false⟩ := by
  have hsel : selectRange files (some st) ep = none := by
    unfold selectRange
    rw [if_pos (le_trans (by omega) (le_max_right 0 (st - 1)))]
  have hext : extract_epub_content_by_range archive files (some st) ep = [] := by
    unfold extract_epub_content_by_range
    rw [hsel]
  refine ⟨hext, ?_⟩
  unfold main_run
  rw [hext]
  rfl

/-- Witness for claim C7 at a one-file list with start bound 5. -/
theorem claim_C7_witness :
    ((([("ch.html").toList] : List (List Char)).length : Int) < 5 ∧
      extract_epub_content_by_range [] [("ch.html").toList] (some 5) none = [] ∧
      main_run [] [("ch.html").toList] (some 5) none true = ⟨1, false, false⟩) :=
  ⟨by decide,
   (claim_C7_start_beyond [] [("ch.html").toList] 5 none true (by decide)).1,
   (claim_C7_start_beyond [] [("ch.html").toList] 5 none true (by decide)).2⟩

/-- Claim C10: when writing the word list fails, `save_words_to_file`
swallows the error (it only prints), so main still runs to completion and the
process exits with status 0 — the outcome records exit code 0 and a completed
run with no output written. -/
theorem claim_C10_write_error_exit_zero (archive : List (List Char × List Char))
    (files : List (List Char)) (sp ep : Option Int)
    (h1 : ¬(extract_epub_content_by_range archive files sp ep = []))
    (h2 : ¬(extract_words_from_content
        (extract_epub_content_by_range archive files sp ep) = [])) :
    main_run archive files sp ep false = ⟨0, false, true⟩ := by
  unfold main_run
  rw [if_neg h1, if_neg h2]
  rfl

/-- Witness for claim C10 at a concrete one-entry archive. -/
theorem claim_C10_witness :
    ¬(extract_epub_content_by_range c10archive [("a.xhtml").toList] none none = []) ∧
    ¬(extract_words_from_content
        (extract_epub_content_by_range c10archive [("a.xhtml").toList] none none) = []) ∧
    main_run c10archive [("a.xhtml").toList] none none false = ⟨0, false, true⟩ :=
  ⟨by decide, by decide,
   claim_C10_write_error_exit_zero c10archive [("a.xhtml").toList] none none
     (by decide) (by decide)⟩
